import Mathlib

/-!
# Verification of the BigchainDB election subsystem (`bigchaindb/elections/election.py`)

Shallow embedding of the `Election` class and its collaborators, translated
statement by statement from the Python source:

* Python `dict` objects (insertion ordered, last write wins) are embedded as
  association lists `List (String × ℕ)` with explicit insert / lookup /
  extensional-equality operations mirroring `dict.__setitem__` and `dict.__eq__`.
* The chain facade (`bigchaindb.lib.BigchainDB`) is embedded as a record of
  read functions (`BigchainState`); the election code only reads from it,
  except for `store_election_results`, a write whose result is never read back
  by any of the functions below, so it does not affect any returned value.
* Python exceptions are values of `PyExc`; fallible code returns `Except`.
* Python `float` arithmetic in `has_concluded` (the `(2/3) * total_votes`
  threshold) is embedded exactly: IEEE-754 binary64 values are the rationals
  with 53-bit significands, and every Python float operation is the exact
  rational operation followed by round-to-nearest-ties-to-even (`roundFloat`).
  Voting powers are far below the overflow/subnormal range of binary64, so
  the unbounded-exponent rounding used here agrees with binary64.
* Amounts and voting powers are naturals: the (external) transaction schema
  only admits positive integer amounts.
-/

/-- Python exceptions raised (or, per the specification, expected) by the
election subsystem.  `valueError` is the builtin `ValueError` raised by
`bytes.fromhex` and by unpacking `[public_key] = voter.public_keys` on a list
whose length is not one.  `invalidElectionId` appears in the specification's
error taxonomy only; nothing in the source raises it. -/
inductive PyExc where
  | valueError
  | duplicateTransaction
  | invalidSignature
  | multipleInputsError
  | invalidProposer
  | unequalValidatorSet
  | invalidElectionId
  deriving DecidableEq

instance exceptDecEq {ε α : Type} [DecidableEq ε] [DecidableEq α] :
    DecidableEq (Except ε α) := fun a b =>
  match a, b with
  | .error e1, .error e2 =>
    match decEq e1 e2 with
    | isTrue h => isTrue (by rw [h])
    | isFalse h => isFalse (by intro hh; injection hh; contradiction)
  | .error _, .ok _ => isFalse (by intro h; exact Except.noConfusion h)
  | .ok _, .error _ => isFalse (by intro h; exact Except.noConfusion h)
  | .ok a1, .ok a2 =>
    match decEq a1 a2 with
    | isTrue h => isTrue (by rw [h])
    | isFalse h => isFalse (by intro hh; injection hh; contradiction)

/-- A transaction output: `output.public_keys` and `output.amount`. -/
structure Output where
  public_keys : List String
  amount : ℕ
  deriving DecidableEq

/-- A transaction input; the election code reads only `owners_before`. -/
structure Input where
  owners_before : List String
  deriving DecidableEq

/-- The slice of a (vote) transaction read by the election code:
`tx.operation`, `tx.asset['id']` and `tx.outputs`. -/
structure Transaction where
  operation : String
  asset_id : String
  outputs : List Output
  deriving DecidableEq

/-- Modelled from the spec: `Vote.OPERATION` lives in
`bigchaindb/elections/vote.py`, which is not part of the sources; §4.B of the
specification fixes the operation tag of a vote transaction to `VOTE`.
`isinstance(tx, Vote)` in `approved_elections` is embedded as a test on this
operation tag. -/
def VOTE_OP : String := "VOTE"

/-- An opaque validator-set update returned by a subtype's `on_approval`
hook.  Python truthiness of such an update (`if validator_update`) is
embedded as `Option.isSome` of the hook's result: absent is `None`/falsy,
present updates are non-empty dicts and hence truthy. -/
structure ValidatorUpdate where
  payload : ℕ
  deriving DecidableEq

/-- The slice of an election transaction read by `Election`'s methods.
`inputsValid` is the result of the base `Transaction.inputs_valid`
signature check, delegated to the (external) base transaction model.
`onApproval` is the concrete subtype's `on_approval` hook (the base class
raises `NotImplementedError`; every registered subtype implements it), as a
function of the new block height. -/
structure Election where
  id : String
  inputs : List Input
  outputs : List Output
  inputsValid : Bool
  onApproval : ℕ → Option ValidatorUpdate

/-- A recorded validator-set change, as returned by
`bigchain.get_validator_change`; the election code reads only its height. -/
structure ValidatorChange where
  height : ℕ
  deriving DecidableEq

/-- A persisted election result, as returned by `bigchain.get_election`;
`get_status` only tests it for truthiness. -/
structure ElectionResult where
  height : ℕ
  deriving DecidableEq

/-- The read interface of the chain facade consumed by `Election`
(§6 of the specification): each field is one read method of the
`BigchainDB` object, with the base-64/ed25519 decoding of validator keys
(done by external helpers in `get_validators`) already applied to
`validatorsList`. -/
structure BigchainState where
  latestBlockHeight : Option ℕ
  validatorChangeAt : ℕ → Option ValidatorChange
  validatorsList : List (String × ℕ)
  isCommitted : String → Bool
  blockContainingTx : String → List ℕ
  getTransaction : String → Option Election
  getElectionResult : String → Option ElectionResult
  assetTokens : String → String → List Transaction

/-! ## Python dictionaries as association lists -/

/-- `d[k] = v` on a Python dict: overwrite in place if the key is present
(keeping insertion order), else append the new binding. -/
def dictInsert (d : List (String × ℕ)) (k : String) (v : ℕ) : List (String × ℕ) :=
  if d.any (fun kv => kv.1 == k) then
    d.map (fun kv => if kv.1 == k then (k, v) else kv)
  else d ++ [(k, v)]

/-- Build a Python dict from a list of key-value pairs, in order. -/
def buildDict (l : List (String × ℕ)) : List (String × ℕ) :=
  l.foldl (fun d kv => dictInsert d kv.1 kv.2) []

/-- `k in d.keys()` on a Python dict. -/
def dictMem (d : List (String × ℕ)) (k : String) : Bool :=
  d.any (fun kv => kv.1 == k)

/-- Python `dict.__eq__`: extensional equality of the two key-value maps
(order-insensitive); coincides with dict equality when both lists have
no duplicate keys, which `dictInsert` maintains. -/
def dictBeq (d1 d2 : List (String × ℕ)) : Bool :=
  d1.all (fun kv => d2.lookup kv.1 == some kv.2) &&
    d2.all (fun kv => d1.lookup kv.1 == some kv.2)

/-- `sum(d.values())` on a Python dict. -/
def dictValuesSum (d : List (String × ℕ)) : ℕ :=
  (d.map Prod.snd).sum

/-- The keys of an association list, in order. -/
def dictKeys (d : List (String × ℕ)) : List String :=
  d.map Prod.fst

/-- `Election.get_validators(bigchain)`: the validator dict built, in feed
order, from the decoded `(public_key, voting_power)` pairs reported by
`bigchain.get_validators` (called with the default `height=None`, the only
way the functions below call it). -/
def getValidators (s : BigchainState) : List (String × ℕ) :=
  buildDict s.validatorsList

/-- `Election.get_validator_change(bigchain)`: `None` when there is no
latest block, else the validator change recorded at the latest height. -/
def getValidatorChange (s : BigchainState) : Option ValidatorChange :=
  match s.latestBlockHeight with
  | none => none
  | some h => s.validatorChangeAt h

/-! ## `Election.count_votes` -/

/-- The inner loop of `count_votes` over one transaction's outputs: starting
from the running total `votes`, add `output.amount` for every output whose
`public_keys` passes the source's test
`len(public_keys) == 1 and [election_pk] == public_keys`. -/
def voteOutputsAdd (election_pk : String) (votes : ℕ) (outs : List Output) : ℕ :=
  outs.foldl
    (fun v o =>
      if o.public_keys.length == 1 && [election_pk] == o.public_keys then
        v + o.amount
      else v)
    votes

/-- `Election.count_votes(election_pk, transactions)`: the two nested `for`
loops accumulating `votes`.  The `getter` parameter of the source (attribute
access for objects, `dict.get` for dicts) is the identity here because both
transaction shapes are embedded as the single `Transaction` record, and
Python's `int(amount)` conversion is the identity on the natural amounts. -/
def countVotes (election_pk : String) (transactions : List Transaction) : ℕ :=
  transactions.foldl
    (fun votes txn =>
      if txn.operation == VOTE_OP then voteOutputsAdd election_pk votes txn.outputs
      else votes)
    0

/-! ## `Election.to_public_key`: hex decoding and base58 encoding -/

/-- The value of one hexadecimal digit character, `none` on any other
character (the failure mode of Python's `bytes.fromhex`). -/
def hexDigit? (c : Char) : Option ℕ :=
  if '0' ≤ c ∧ c ≤ '9' then some (c.toNat - 48)
  else if 'a' ≤ c ∧ c ≤ 'f' then some (c.toNat - 87)
  else if 'A' ≤ c ∧ c ≤ 'F' then some (c.toNat - 55)
  else none

/-- Decode a list of characters as hexadecimal byte pairs; `none` on odd
length or on a non-hex character. -/
def hexPairs : List Char → Option (List ℕ)
  | [] => some []
  | [_] => none
  | c1 :: c2 :: rest =>
    match hexDigit? c1, hexDigit? c2, hexPairs rest with
    | some hi, some lo, some bs => some ((16 * hi + lo) :: bs)
    | _, _, _ => none

/-- `bytes.fromhex(s)`: the byte list, or `none` when Python would raise
`ValueError`.  (Python additionally allows single spaces between byte pairs;
election ids are bare hex hashes, so that case is not modelled.) -/
def hexDecode (s : String) : Option (List ℕ) :=
  hexPairs s.toList

/-- The bitcoin base58 alphabet used by the `base58` package. -/
def B58_ALPHABET : List Char :=
  "123456789ABCDEFGHJKLMNPQRSTUVWXYZabcdefghijkmnopqrstuvwxyz".toList

/-- Big-endian base-58 digits of `n` (empty for `n = 0`), with enough fuel. -/
def natToB58 : ℕ → ℕ → List Char
  | 0, _ => []
  | _ + 1, 0 => []
  | fuel + 1, n => natToB58 fuel (n / 58) ++ [B58_ALPHABET.getD (n % 58) '1']

/-- The big-endian value of a byte list. -/
def bytesToNat (bs : List ℕ) : ℕ :=
  bs.foldl (fun a b => a * 256 + b) 0

/-- `base58.b58encode(bs).decode()`: one alphabet leading character `'1'`
per leading zero byte, then the base-58 digits of the big-endian value. -/
def b58encode (bs : List ℕ) : String :=
  let zeros := (bs.takeWhile (fun b => b == 0)).length
  let n := bytesToNat bs
  String.mk (List.replicate zeros '1' ++ natToB58 (n + 1) n)

/-- `Election.to_public_key(election_id)`:
`base58.b58encode(bytes.fromhex(election_id)).decode()`, with the
`ValueError` of `bytes.fromhex` propagating on a non-hex id. -/
def toPublicKey (election_id : String) : Except PyExc String :=
  match hexDecode election_id with
  | none => .error .valueError
  | some bs => .ok (b58encode bs)

/-! ## Python binary64 floating point, modelled exactly

`has_concluded` computes its threshold as `(2/3) * total_votes` on Python
floats.  A finite binary64 float is a rational; each float operation is the
exact rational operation rounded to 53 significant bits, to nearest, ties to
even.  All quantities reached here are nonnegative and far inside the normal
range, so exponent bounds never bind and are not modelled. -/

/-- `⌊log2 q⌋`-helper on naturals, fuel-recursive so that it evaluates by
kernel reduction (`Nat.log2` in core is defined by well-founded recursion). -/
def natLog2F : ℕ → ℕ → ℕ
  | 0, _ => 0
  | fuel + 1, n => if 2 ≤ n then natLog2F fuel (n / 2) + 1 else 0

/-- `2 ^ e` in `ℚ` for an integer exponent. -/
def pow2 : ℤ → ℚ
  | Int.ofNat n => (2 : ℚ) ^ n
  | Int.negSucc n => ((2 : ℚ) ^ (n + 1))⁻¹

/-- `⌊log2 q⌋` of a positive rational. -/
def qlog2 (q : ℚ) : ℤ :=
  let a := q.num.toNat
  let b := q.den
  let d : ℤ := (natLog2F a a : ℤ) - (natLog2F b b : ℤ)
  if pow2 d ≤ q then d else d - 1

/-- Round a nonnegative rational to an integer, to nearest, ties to even. -/
def roundHalfEven (s : ℚ) : ℤ :=
  let n : ℤ := s.num / (s.den : ℤ)
  let frac : ℚ := s - (n : ℚ)
  if frac < 1 / 2 then n
  else if (1 : ℚ) / 2 < frac then n + 1
  else if n % 2 = 0 then n else n + 1

/-- Round a nonnegative rational to the nearest binary64 value
(53 significant bits, ties to even; exponent range not modelled). -/
def roundFloat (q : ℚ) : ℚ :=
  if q = 0 then 0
  else
    let e : ℤ := qlog2 q - 52
    (roundHalfEven (q * pow2 (-e)) : ℚ) * pow2 e

/-- The Python float `2/3`: true division of `2` by `3`, correctly rounded. -/
def pyTwoThirds : ℚ :=
  roundFloat (2 / 3)

/-- Conversion of a Python int to float, as in `float.__rmul__`:
exact for values below `2 ^ 53`, rounded above. -/
def pyFloatOfNat (n : ℕ) : ℚ :=
  roundFloat (n : ℚ)

/-- The Python expression `(2/3) * total_votes` of `has_concluded`:
the float `2/3` times the float of `total_votes`, with the product
correctly rounded. -/
def pyThreshold (total_votes : ℕ) : ℚ :=
  roundFloat (pyTwoThirds * pyFloatOfNat total_votes)

/-! ## `Election.is_same_topology` and `Election.validate` -/

/-- The loop of `is_same_topology`, carrying the `voters` dict built so far.
For each output: `len(public_keys) > 1` returns `False`; the unpacking
`[public_key] = voter.public_keys` then raises `ValueError` on an empty
list; otherwise `voters[public_key] = voter.amount`.  After the loop the
result is `current_topology == voters` (Python dict equality). -/
def isSameTopologyAux (current_topology : List (String × ℕ)) :
    List Output → List (String × ℕ) → Except PyExc Bool
  | [], voters => .ok (dictBeq current_topology voters)
  | voter :: rest, voters =>
    if voter.public_keys.length > 1 then .ok false
    else
      match voter.public_keys with
      | [public_key] =>
        isSameTopologyAux current_topology rest (dictInsert voters public_key voter.amount)
      | _ => .error .valueError

/-- `Election.is_same_topology(current_topology, election_topology)`. -/
def is_same_topology (current_topology : List (String × ℕ))
    (election_topology : List Output) : Except PyExc Bool :=
  isSameTopologyAux current_topology election_topology []

/-- `Election.validate(bigchain, current_transactions)`: the checks in
source order — duplicate id (committed or in `current_transactions`),
input-condition signatures, a single input with a single owner, proposer
membership in the validator dict, and output topology.  On success the
election itself is returned.  All chain accesses are reads. -/
def Election.validate (self : Election) (s : BigchainState)
    (current_transactions : List Election) : Except PyExc Election :=
  if s.isCommitted self.id || current_transactions.any (fun txn => txn.id == self.id) then
    .error .duplicateTransaction
  else if !self.inputsValid then .error .invalidSignature
  else
    match self.inputs with
    | [inp] =>
      match inp.owners_before with
      | [election_initiator_node_pub_key] =>
        if !dictMem (getValidators s) election_initiator_node_pub_key then
          .error .invalidProposer
        else
          match is_same_topology (getValidators s) self.outputs with
          | .error ex => .error ex
          | .ok false => .error .unequalValidatorSet
          | .ok true => .ok self
      | _ => .error .multipleInputsError
    | _ => .error .multipleInputsError

/-! ## `Election.has_concluded` and the status machine -/

/-- `Election.get_commited_votes(bigchain, election_pk)`: count the votes in
the transactions returned by the backend token query for
`(self.id, election_pk)`. -/
def getCommittedVotes (s : BigchainState) (self : Election) (election_pk : String) : ℕ :=
  countVotes election_pk (s.assetTokens self.id election_pk)

/-- `Election.has_validator_set_changed(bigchain)`: false when there is no
recorded change or the election's containing block cannot be located, else
whether the latest change is stored at a height strictly above the first
block containing the election. -/
def hasValidatorSetChanged (s : BigchainState) (self : Election) : Bool :=
  match getValidatorChange s with
  | none => false
  | some latest_change =>
    match s.blockContainingTx self.id with
    | [] => false
    | election_height :: _ => decide (latest_change.height > election_height)

/-- `Election.has_concluded(bigchain, current_votes)`: derive the election
public key (propagating the hex `ValueError`), tally committed and pending
votes, return `False` on a validator-set change, else test
`votes_committed < (2/3) * total_votes` and
`votes_committed + votes_current >= (2/3) * total_votes`, both on Python
floats (`pyThreshold`), with the exact int-float comparison Python uses. -/
def hasConcluded (s : BigchainState) (self : Election)
    (current_votes : List Transaction) : Except PyExc Bool :=
  match toPublicKey self.id with
  | .error ex => .error ex
  | .ok election_pk =>
    if hasValidatorSetChanged s self then .ok false
    else if (getCommittedVotes s self election_pk : ℚ) <
            pyThreshold (dictValuesSum (getValidators s)) ∧
        ((getCommittedVotes s self election_pk : ℚ) +
            (countVotes election_pk current_votes : ℚ) ≥
          pyThreshold (dictValuesSum (getValidators s))) then
      .ok true
    else .ok false

/-- The status constant `Election.ONGOING`. -/
def ONGOING : String := "ongoing"

/-- The status constant `Election.CONCLUDED`. -/
def CONCLUDED : String := "concluded"

/-- The status constant `Election.INCONCLUSIVE`. -/
def INCONCLUSIVE : String := "inconclusive"

/-- `Election.get_status(bigchain)`: `CONCLUDED` when a persisted election
result exists, else `INCONCLUSIVE` or `ONGOING` by validator-set change. -/
def getStatus (s : BigchainState) (self : Election) : String :=
  match s.getElectionResult self.id with
  | some _ => CONCLUDED
  | none => if hasValidatorSetChanged s self then INCONCLUSIVE else ONGOING

/-! ## `Election.approved_elections` -/

/-- Append a vote under its election id in the ordered grouping, creating the
entry at the end on first appearance (`OrderedDict` semantics). -/
def addVote (acc : List (String × List Transaction)) (eid : String)
    (tx : Transaction) : List (String × List Transaction) :=
  if acc.any (fun p => p.1 == eid) then
    acc.map (fun p => if p.1 == eid then (p.1, p.2 ++ [tx]) else p)
  else acc ++ [(eid, [tx])]

/-- The first loop of `approved_elections`: group the block's vote
transactions by `tx.asset['id']`, preserving first-appearance order. -/
def groupVotes (txns : List Transaction) : List (String × List Transaction) :=
  txns.foldl
    (fun acc tx => if tx.operation == VOTE_OP then addVote acc tx.asset_id tx else acc)
    []

/-- The second loop of `approved_elections` over the grouped votes, carrying
the single `validator_update` variable: a missing election is skipped, a
non-concluded election is skipped, a concluded election overwrites
`validator_update` with its `on_approval` result (the
`store_election_results` write is not read back by anything here).  An
exception from `has_concluded` propagates. -/
def approvedLoop (s : BigchainState) (new_height : ℕ) :
    List (String × List Transaction) → Option ValidatorUpdate →
    Except PyExc (Option ValidatorUpdate)
  | [], vu => .ok vu
  | (election_id, votes) :: rest, vu =>
    match s.getTransaction election_id with
    | none => approvedLoop s new_height rest vu
    | some election =>
      match hasConcluded s election votes with
      | .error ex => .error ex
      | .ok false => approvedLoop s new_height rest vu
      | .ok true => approvedLoop s new_height rest (election.onApproval new_height)

/-- `Election.approved_elections(bigchain, new_height, txns)`: group the
votes, run the approval loop, and return
`[validator_update] if validator_update else []`. -/
def approved_elections (s : BigchainState) (new_height : ℕ)
    (txns : List Transaction) : Except PyExc (List ValidatorUpdate) :=
  match approvedLoop s new_height (groupVotes txns) none with
  | .error ex => .error ex
  | .ok (some u) => .ok [u]
  | .ok none => .ok []

/-! ## Specification-side definitions

These definitions follow the specification's words rather than the source;
the theorems below compare the source embeddings against them. -/

/-- Spec §4.D: the sum, over all `tx` in `txs` where `tx.operation == VOTE`,
over all `output` in `tx.outputs`, of `output.amount` iff
`output.public_keys == [election_pk]` (exact singleton match). -/
def specCountVotes (election_pk : String) (txs : List Transaction) : ℕ :=
  (txs.map (fun tx =>
    if tx.operation = VOTE_OP then
      ((tx.outputs.filter (fun o => o.public_keys = [election_pk])).map Output.amount).sum
    else 0)).sum

/-- Spec §4.F: the supermajority-crossing predicate in exact integer
arithmetic: `3·committed < 2·T` and `3·(committed + pending) ≥ 2·T`. -/
def intSupermajority (committed pending total : ℕ) : Prop :=
  3 * committed < 2 * total ∧ 3 * (committed + pending) ≥ 2 * total

instance (committed pending total : ℕ) :
    Decidable (intSupermajority committed pending total) :=
  instDecidableAnd

/-- The voters dict that `is_same_topology` builds when every output carries
a single public key (last write wins on duplicates). -/
def votersOf (outs : List Output) : List (String × ℕ) :=
  outs.foldl (fun d o => dictInsert d (o.public_keys.headD "") o.amount) []

/-- Spec §4.G: an id is well-formed hexadecimal when it has even length and
every character is a hex digit. -/
def hexWellFormed (s : String) : Prop :=
  s.toList.length % 2 = 0 ∧ ∀ c ∈ s.toList, (hexDigit? c).isSome = true

instance (s : String) : Decidable (hexWellFormed s) :=
  instDecidableAnd

/-- Whether an `Except` value is a success. -/
def exceptOk {ε α : Type} : Except ε α → Bool
  | .ok _ => true
  | .error _ => false

/-- One grouped entry of `approved_elections` is processed without an
exception: the election is missing, or its `has_concluded` call returns. -/
def electionStepOk (s : BigchainState) (p : String × List Transaction) : Bool :=
  match s.getTransaction p.1 with
  | none => true
  | some e => exceptOk (hasConcluded s e p.2)

/-- The `on_approval` results of the concluded elections of a grouped vote
list, in processing order (spec §4.F step 2; a missing or non-concluded
election contributes nothing). -/
def concludedOf (s : BigchainState) (new_height : ℕ)
    (l : List (String × List Transaction)) : List (Option ValidatorUpdate) :=
  l.filterMap (fun p =>
    match s.getTransaction p.1 with
    | none => none
    | some e =>
      match hasConcluded s e p.2 with
      | .ok true => some (e.onApproval new_height)
      | _ => none)

/-! ## Lemmas about `count_votes` -/

theorem voteOutputsAdd_shift (pk : String) (v : ℕ) (outs : List Output) :
    voteOutputsAdd pk v outs = v + voteOutputsAdd pk 0 outs := by
  induction outs generalizing v with
  | nil => simp [voteOutputsAdd]
  | cons o rest ih =>
    simp only [voteOutputsAdd, List.foldl_cons] at *
    by_cases h : (o.public_keys.length == 1 && [pk] == o.public_keys) = true
    · rw [if_pos h, if_pos h, ih (v + o.amount), ih (0 + o.amount)]
      omega
    · rw [if_neg h, if_neg h, ih v]

theorem countFold_shift (pk : String) (ts : List Transaction) (v : ℕ) :
    ts.foldl
        (fun votes txn =>
          if txn.operation == VOTE_OP then voteOutputsAdd pk votes txn.outputs else votes)
        v =
      v + countVotes pk ts := by
  induction ts generalizing v with
  | nil => simp [countVotes]
  | cons u us ih =>
    simp only [countVotes, List.foldl_cons]
    by_cases h : (u.operation == VOTE_OP) = true
    · simp only [if_pos h]
      rw [ih, ih, voteOutputsAdd_shift pk v]
      omega
    · simp only [if_neg h]
      rw [ih, ih]
      omega

theorem countVotes_cons (pk : String) (t : Transaction) (ts : List Transaction) :
    countVotes pk (t :: ts) =
      (if t.operation == VOTE_OP then voteOutputsAdd pk 0 t.outputs else 0) +
        countVotes pk ts := by
  simp only [countVotes, List.foldl_cons]
  rw [countFold_shift]
  rfl

theorem voteOutputsAdd_eq_sum (pk : String) (outs : List Output) :
    voteOutputsAdd pk 0 outs =
      ((outs.filter (fun o => o.public_keys = [pk])).map Output.amount).sum := by
  induction outs with
  | nil => simp [voteOutputsAdd]
  | cons o rest ih =>
    rw [show voteOutputsAdd pk 0 (o :: rest) =
        voteOutputsAdd pk
          (if (o.public_keys.length == 1 && [pk] == o.public_keys) = true then 0 + o.amount
           else 0) rest from rfl]
    by_cases h : o.public_keys = [pk]
    · have hc : (o.public_keys.length == 1 && [pk] == o.public_keys) = true := by simp [h]
      rw [if_pos hc, voteOutputsAdd_shift pk (0 + o.amount) rest, ih]
      rw [show (List.filter (fun o => decide (o.public_keys = [pk])) (o :: rest)) =
            o :: List.filter (fun o => decide (o.public_keys = [pk])) rest by
          simp [List.filter, h]]
      simp only [List.map_cons, List.sum_cons]
      omega
    · have hc : (o.public_keys.length == 1 && [pk] == o.public_keys) = false := by
        rcases hb : (o.public_keys.length == 1) with _ | _
        · simp [hb]
        · simp only [hb, Bool.true_and]
          rcases he : ([pk] == o.public_keys) with _ | _
          · rfl
          · exact absurd (beq_iff_eq.mp he).symm h
      rw [if_neg (by simp [hc]), ih]
      rw [show (List.filter (fun o => decide (o.public_keys = [pk])) (o :: rest)) =
            List.filter (fun o => decide (o.public_keys = [pk])) rest by
          simp [List.filter, h]]

/-- C5: for every election public key `pk` and transaction list,
`count_votes` equals the sum, over the transactions whose operation is
`VOTE`, of the amounts of exactly those outputs whose `public_keys` list is
the singleton `[pk]`; any other output, including one carrying `pk`
alongside further keys, contributes nothing. -/
theorem count_votes_exact_singleton_sum (election_pk : String)
    (txs : List Transaction) :
    countVotes election_pk txs = specCountVotes election_pk txs := by
  induction txs with
  | nil => simp [countVotes, specCountVotes]
  | cons t ts ih =>
    rw [countVotes_cons, ih]
    simp only [specCountVotes, List.map_cons, List.sum_cons]
    by_cases h : t.operation = VOTE_OP
    · rw [if_pos (beq_iff_eq.mpr h), if_pos h, voteOutputsAdd_eq_sum]
    · rw [if_neg (by simpa using h), if_neg h]

/-- C9: `count_votes` is additive — it maps the empty list to `0` and
concatenation to addition — so a block tally is the sum of per-transaction
tallies (a natural number, hence never negative). -/
theorem count_votes_additive (election_pk : String)
    (xs ys : List Transaction) :
    countVotes election_pk (xs ++ ys) =
        countVotes election_pk xs + countVotes election_pk ys ∧
      countVotes election_pk ([] : List Transaction) = 0 := by
  constructor
  · simp only [countVotes, List.foldl_append]
    rw [countFold_shift]
    rfl
  · rfl

/-- C10: `Election.validate` performs no writes — every chain access it
makes is one of the read methods of `BigchainState`, which is threaded in
unchanged — and it either raises one of its validation errors or returns
the election itself, unmodified. -/
theorem validate_read_only_returns_self (self : Election) (s : BigchainState)
    (current_transactions : List Election) :
    self.validate s current_transactions = Except.ok self ∨
      ∃ ex, self.validate s current_transactions = Except.error ex := by
  unfold Election.validate
  split
  · exact Or.inr ⟨_, rfl⟩
  · split
    · exact Or.inr ⟨_, rfl⟩
    · split
      · split
        · split
          · exact Or.inr ⟨_, rfl⟩
          · split
            · exact Or.inr ⟨_, rfl⟩
            · exact Or.inr ⟨_, rfl⟩
            · exact Or.inl rfl
        · exact Or.inr ⟨_, rfl⟩
      · exact Or.inr ⟨_, rfl⟩

/-! ## Lemmas about dictionaries and `is_same_topology` -/

theorem isSameTopologyAux_eq (cur : List (String × ℕ)) (outs : List Output)
    (acc : List (String × ℕ)) :
    isSameTopologyAux cur outs acc =
      match outs.find? (fun o => o.public_keys.length != 1) with
      | none =>
        .ok (dictBeq cur
          (outs.foldl (fun d o => dictInsert d (o.public_keys.headD "") o.amount) acc))
      | some o => if o.public_keys.length > 1 then .ok false else .error .valueError := by
  induction outs generalizing acc with
  | nil => simp [isSameTopologyAux]
  | cons o rest ih =>
    rcases hpk : o.public_keys with _ | ⟨a, _ | ⟨b, t⟩⟩
    · simp [isSameTopologyAux, List.find?, hpk]
    · simp only [isSameTopologyAux, hpk, List.length_cons, List.length_nil,
        gt_iff_lt, Nat.lt_irrefl, if_false]
      rw [ih]
      simp [List.find?, hpk]
    · simp [isSameTopologyAux, List.find?, hpk]

theorem dictKeys_dictInsert (d : List (String × ℕ)) (k : String) (v : ℕ) :
    dictKeys (dictInsert d k v) =
      if dictMem d k then dictKeys d else dictKeys d ++ [k] := by
  unfold dictInsert dictMem dictKeys
  split
  · rw [List.map_map]
    apply List.map_congr_left
    intro kv _
    simp only [Function.comp_apply]
    by_cases h : (kv.1 == k) = true
    · rw [if_pos h]
      exact (beq_iff_eq.mp h).symm
    · rw [if_neg h]
  · simp

theorem dictMem_iff_mem_keys (d : List (String × ℕ)) (k : String) :
    dictMem d k = true ↔ k ∈ dictKeys d := by
  unfold dictMem dictKeys
  simp [List.any_eq_true, List.mem_map, beq_iff_eq]

theorem dictKeys_nodup_dictInsert (d : List (String × ℕ)) (k : String) (v : ℕ)
    (hd : (dictKeys d).Nodup) : (dictKeys (dictInsert d k v)).Nodup := by
  rw [dictKeys_dictInsert]
  by_cases h : dictMem d k = true
  · rwa [if_pos h]
  · rw [if_neg h]
    have hk : k ∉ dictKeys d := fun hmem => h ((dictMem_iff_mem_keys d k).mpr hmem)
    simp [List.nodup_append, hd, hk]

theorem dictMem_dictInsert_self (d : List (String × ℕ)) (k : String) (v : ℕ) :
    dictMem (dictInsert d k v) k = true := by
  rw [dictMem_iff_mem_keys, dictKeys_dictInsert]
  by_cases h : dictMem d k = true
  · rw [if_pos h]
    exact (dictMem_iff_mem_keys d k).mp h
  · rw [if_neg h]
    simp

theorem dictMem_dictInsert_of_mem (d : List (String × ℕ)) (k k' : String) (v : ℕ)
    (h : dictMem d k = true) : dictMem (dictInsert d k' v) k = true := by
  rw [dictMem_iff_mem_keys, dictKeys_dictInsert]
  have := (dictMem_iff_mem_keys d k).mp h
  by_cases h' : dictMem d k' = true
  · rwa [if_pos h']
  · rw [if_neg h']
    simp [this]

theorem dictInsert_length_le (d : List (String × ℕ)) (k : String) (v : ℕ) :
    (dictInsert d k v).length ≤ d.length + 1 := by
  unfold dictInsert
  split <;> simp

theorem dictInsert_length_of_mem (d : List (String × ℕ)) (k : String) (v : ℕ)
    (h : dictMem d k = true) : (dictInsert d k v).length = d.length := by
  unfold dictMem at h
  unfold dictInsert
  rw [if_pos h]
  simp

theorem foldl_dictInsert_length_le (l : List (String × ℕ)) :
    ∀ d, (l.foldl (fun d kv => dictInsert d kv.1 kv.2) d).length ≤ d.length + l.length := by
  induction l with
  | nil => intro d; simp
  | cons y t ih =>
    intro d
    simp only [List.foldl_cons, List.length_cons]
    calc (t.foldl (fun d kv => dictInsert d kv.1 kv.2) (dictInsert d y.1 y.2)).length
        ≤ (dictInsert d y.1 y.2).length + t.length := ih _
      _ ≤ (d.length + 1) + t.length := by
          have := dictInsert_length_le d y.1 y.2
          omega
      _ = d.length + (t.length + 1) := by omega

theorem foldl_dictInsert_length_lt_of_mem (l : List (String × ℕ)) :
    ∀ (d : List (String × ℕ)) (k : String), dictMem d k = true →
      k ∈ l.map Prod.fst →
      (l.foldl (fun d kv => dictInsert d kv.1 kv.2) d).length + 1 ≤ d.length + l.length := by
  induction l with
  | nil => intro d k _ hk; simp at hk
  | cons y t ih =>
    intro d k hd hk
    simp only [List.foldl_cons, List.length_cons]
    rw [List.map_cons] at hk
    rcases List.mem_cons.mp hk with heq | hmem
    · have hmemy : dictMem d y.1 = true := by rwa [← heq]
      have h1 : (dictInsert d y.1 y.2).length = d.length :=
        dictInsert_length_of_mem d y.1 y.2 hmemy
      have h2 := foldl_dictInsert_length_le t (dictInsert d y.1 y.2)
      omega
    · have hd' : dictMem (dictInsert d y.1 y.2) k = true :=
        dictMem_dictInsert_of_mem d k y.1 y.2 hd
      have h1 := ih (dictInsert d y.1 y.2) k hd' hmem
      have h2 := dictInsert_length_le d y.1 y.2
      omega

theorem foldl_dictInsert_length_lt_of_dup (l : List (String × ℕ)) :
    ∀ (d : List (String × ℕ)), ¬ (l.map Prod.fst).Nodup →
      (l.foldl (fun d kv => dictInsert d kv.1 kv.2) d).length + 1 ≤ d.length + l.length := by
  induction l with
  | nil => intro d hdup; exact absurd List.nodup_nil hdup
  | cons y t ih =>
    intro d hdup
    simp only [List.map_cons, List.nodup_cons] at hdup
    by_cases hmem : y.1 ∈ t.map Prod.fst
    · simp only [List.foldl_cons, List.length_cons]
      have h1 := foldl_dictInsert_length_lt_of_mem t (dictInsert d y.1 y.2) y.1
        (dictMem_dictInsert_self d y.1 y.2) hmem
      have h2 := dictInsert_length_le d y.1 y.2
      omega
    · have hdup' : ¬ (t.map Prod.fst).Nodup := fun hn => hdup ⟨hmem, hn⟩
      simp only [List.foldl_cons, List.length_cons]
      have h1 := ih (dictInsert d y.1 y.2) hdup'
      have h2 := dictInsert_length_le d y.1 y.2
      omega

theorem lookup_some_mem_keys (d : List (String × ℕ)) (k : String) (v : ℕ)
    (h : d.lookup k = some v) : k ∈ dictKeys d := by
  induction d with
  | nil => simp [List.lookup] at h
  | cons y t ih =>
    by_cases hb : (k == y.1) = true
    · simp [dictKeys, beq_iff_eq.mp hb]
    · have hred : List.lookup k (y :: t) = List.lookup k t := by
        rcases y with ⟨yk, yv⟩
        simp only [List.lookup]
        rw [Bool.eq_false_iff.mpr hb]
      rw [hred] at h
      simp only [dictKeys, List.map_cons, List.mem_cons]
      exact Or.inr (ih h)

theorem dictBeq_length_le (d1 d2 : List (String × ℕ))
    (h : dictBeq d1 d2 = true) (hn : (dictKeys d1).Nodup) :
    d1.length ≤ d2.length := by
  unfold dictBeq at h
  rw [Bool.and_eq_true] at h
  have h1 := h.1
  rw [List.all_eq_true] at h1
  have hsub : ∀ x ∈ dictKeys d1, x ∈ dictKeys d2 := by
    intro x hx
    rcases List.mem_map.mp hx with ⟨kv, hkv, hfst⟩
    have := beq_iff_eq.mp (h1 kv hkv)
    subst hfst
    exact lookup_some_mem_keys d2 kv.1 kv.2 this
  have hcard1 : (dictKeys d1).toFinset.card = (dictKeys d1).length :=
    List.toFinset_card_of_nodup hn
  have hss : (dictKeys d1).toFinset ⊆ (dictKeys d2).toFinset := by
    intro x hx
    rw [List.mem_toFinset] at hx ⊢
    exact hsub x hx
  have hc := Finset.card_le_card hss
  have hc2 := List.toFinset_card_le (dictKeys d2)
  have hl1 : (dictKeys d1).length = d1.length := by simp [dictKeys]
  have hl2 : (dictKeys d2).length = d2.length := by simp [dictKeys]
  omega

theorem buildDict_keys_nodup_aux (l : List (String × ℕ)) :
    ∀ d, (dictKeys d).Nodup →
      (dictKeys (l.foldl (fun d kv => dictInsert d kv.1 kv.2) d)).Nodup := by
  induction l with
  | nil => intro d hd; simpa using hd
  | cons y t ih =>
    intro d hd
    simp only [List.foldl_cons]
    exact ih _ (dictKeys_nodup_dictInsert d y.1 y.2 hd)

theorem buildDict_keys_nodup (l : List (String × ℕ)) :
    (dictKeys (buildDict l)).Nodup :=
  buildDict_keys_nodup_aux l [] (by simp [dictKeys])

/-- The loop of `is_same_topology`, characterized by the first output whose
`public_keys` is not a singleton (shared helper). -/
theorem isSameTopology_spec (cur : List (String × ℕ)) (outs : List Output) :
    is_same_topology cur outs =
      match outs.find? (fun o => o.public_keys.length != 1) with
      | none => .ok (dictBeq cur (votersOf outs))
      | some o =>
        if o.public_keys.length > 1 then .ok false else .error .valueError := by
  unfold is_same_topology votersOf
  exact isSameTopologyAux_eq cur outs []

/-- C7 (amended): `is_same_topology` never fails on an output whose
`public_keys` has cardinality greater than one — it returns false as soon
as the first such output is reached — but it is not total: when the first
output with non-singleton `public_keys` has cardinality zero, the unpacking
`[public_key] = voter.public_keys` raises `ValueError`.  When every output
carries exactly one key it returns true iff the voters map built from the
`(public_key, amount)` pairs equals `current_topology` exactly (total map
equality, not subset). -/
theorem is_same_topology_characterization (cur : List (String × ℕ))
    (outs : List Output) :
    is_same_topology cur outs =
      match outs.find? (fun o => o.public_keys.length != 1) with
      | none => .ok (dictBeq cur (votersOf outs))
      | some o =>
        if o.public_keys.length > 1 then .ok false else .error .valueError :=
  isSameTopology_spec cur outs

/-- C7 counterexample: on an output with an empty `public_keys` list the
claim says `is_same_topology` returns false; instead the unpacking raises
`ValueError`. -/
theorem is_same_topology_empty_keys_raises :
    is_same_topology [] [Output.mk [] 5] = .error .valueError ∧
      is_same_topology [] [Output.mk [] 5] ≠ .ok false := by
  decide

/-- C6 (amended): when every output carries exactly one public key, two
distinct outputs carry the same key, and the outputs are not more numerous
than the validators (as with the one-output-per-validator shape the base
create schema enforces), the voters-map construction collapses the
duplicates, so the collapsed map is smaller than the validator map,
`is_same_topology` returns false and — all earlier checks passing —
`Election.validate` fails with `UnequalValidatorSet`.  (Without the size
bound the claim fails: the collapsed map can coincidentally equal the
validator map, see the counterexample.) -/
theorem duplicate_output_key_fails_validation (s : BigchainState) (e : Election)
    (txs : List Election) (p : String)
    (hall : e.outputs.all (fun o => o.public_keys.length == 1) = true)
    (hdup : ¬ (e.outputs.map (fun o => o.public_keys.headD "")).Nodup)
    (hlen : e.outputs.length ≤ (getValidators s).length)
    (hcom : s.isCommitted e.id = false)
    (hdupl : txs.any (fun txn => txn.id == e.id) = false)
    (hsig : e.inputsValid = true)
    (hinp : e.inputs = [Input.mk [p]])
    (hmem : dictMem (getValidators s) p = true) :
    is_same_topology (getValidators s) e.outputs = .ok false ∧
      e.validate s txs = .error .unequalValidatorSet := by
  have hfind : e.outputs.find? (fun o => o.public_keys.length != 1) = none := by
    rw [List.find?_eq_none]
    intro o ho
    rw [List.all_eq_true] at hall
    have := beq_iff_eq.mp (hall o ho)
    simp [this]
  have hpairs : votersOf e.outputs =
      (e.outputs.map (fun o => (o.public_keys.headD "", o.amount))).foldl
        (fun d kv => dictInsert d kv.1 kv.2) [] := by
    rw [List.foldl_map]
    rfl
  have hdup' : ¬ ((e.outputs.map (fun o => (o.public_keys.headD "", o.amount))).map
      Prod.fst).Nodup := by
    rw [List.map_map]
    simpa using hdup
  have hcount := foldl_dictInsert_length_lt_of_dup
    (e.outputs.map (fun o => (o.public_keys.headD "", o.amount))) [] hdup'
  rw [← hpairs] at hcount
  simp only [List.length_nil, List.length_map, Nat.zero_add] at hcount
  have hbeq : dictBeq (getValidators s) (votersOf e.outputs) = false := by
    rcases hb : dictBeq (getValidators s) (votersOf e.outputs) with _ | _
    · rfl
    · exfalso
      have hle := dictBeq_length_le (getValidators s) (votersOf e.outputs) hb
        (buildDict_keys_nodup s.validatorsList)
      omega
  have htop : is_same_topology (getValidators s) e.outputs = .ok false := by
    rw [isSameTopology_spec, hfind, hbeq]
  refine ⟨htop, ?_⟩
  unfold Election.validate
  rw [hcom, hdupl, hinp, hsig]
  simp only [Bool.or_self, Bool.not_true, Bool.false_eq_true, if_false, htop, hmem]

/-- A chain state with a single validator `A` of power 5 and an otherwise
empty chain. -/
def sDup : BigchainState :=
  { latestBlockHeight := none
    validatorChangeAt := fun _ => none
    validatorsList := [("A", 5)]
    isCommitted := fun _ => false
    blockContainingTx := fun _ => []
    getTransaction := fun _ => none
    getElectionResult := fun _ => none
    assetTokens := fun _ _ => [] }

/-- An election whose two outputs both pay validator `A`, the second with
`A`'s exact voting power: the dict construction collapses the duplicate. -/
def eDup : Election :=
  { id := "00"
    inputs := [Input.mk ["A"]]
    outputs := [Output.mk ["A"] 3, Output.mk ["A"] 5]
    inputsValid := true
    onApproval := fun _ => none }

/-- C6 counterexample: two distinct outputs pay the same validator, yet
`is_same_topology` returns true — the collapsed voters map coincides with
the validator map — and `validate` succeeds instead of raising
`UnequalValidatorSet`. -/
theorem duplicate_output_key_counterexample :
    is_same_topology (getValidators sDup) eDup.outputs = .ok true ∧
      eDup.validate sDup [] = .ok eDup := by
  constructor
  · decide
  · rfl

/-- A chain state with validators `A` (power 5) and `B` (power 3). -/
def sDup2 : BigchainState :=
  { latestBlockHeight := none
    validatorChangeAt := fun _ => none
    validatorsList := [("A", 5), ("B", 3)]
    isCommitted := fun _ => false
    blockContainingTx := fun _ => []
    getTransaction := fun _ => none
    getElectionResult := fun _ => none
    assetTokens := fun _ _ => [] }

/-- An election with as many outputs as validators but a duplicated output
key. -/
def eDup2 : Election :=
  { id := "00"
    inputs := [Input.mk ["A"]]
    outputs := [Output.mk ["A"] 2, Output.mk ["A"] 5]
    inputsValid := true
    onApproval := fun _ => none }

theorem duplicate_output_key_fails_validation_witness :
    is_same_topology (getValidators sDup2) eDup2.outputs = .ok false ∧
      eDup2.validate sDup2 [] = .error .unequalValidatorSet :=
  duplicate_output_key_fails_validation sDup2 eDup2 [] "A" (by decide) (by decide)
    (by decide) (by decide) (by decide) (by decide) (by decide) (by decide)

/-! ## Key derivation (C8) -/

theorem hexPairs_isSome_iff : ∀ l : List Char,
    (hexPairs l).isSome = true ↔
      (l.length % 2 = 0 ∧ ∀ c ∈ l, (hexDigit? c).isSome = true)
  | [] => by simp [hexPairs]
  | [c] => by simp [hexPairs]
  | c1 :: c2 :: rest => by
    have ih := hexPairs_isSome_iff rest
    have hlen2 : (c1 :: c2 :: rest).length % 2 = rest.length % 2 := by
      simp only [List.length_cons]
      omega
    constructor
    · intro h
      rcases h1 : hexDigit? c1 with _ | d1
      · exfalso
        simp [hexPairs, h1] at h
      rcases h2 : hexDigit? c2 with _ | d2
      · exfalso
        simp [hexPairs, h1, h2] at h
      rcases h3 : hexPairs rest with _ | bs
      · exfalso
        simp [hexPairs, h1, h2, h3] at h
      have hrest := ih.mp (by rw [h3]; rfl)
      refine ⟨by rw [hlen2]; exact hrest.1, ?_⟩
      intro c hc
      rcases List.mem_cons.mp hc with rfl | hc'
      · simp [h1]
      rcases List.mem_cons.mp hc' with rfl | hc''
      · simp [h2]
      exact hrest.2 c hc''
    · rintro ⟨hlen, hdig⟩
      have h1 := hdig c1 (by simp)
      have h2 := hdig c2 (by simp)
      rcases hd1 : hexDigit? c1 with _ | d1
      · rw [hd1] at h1
        simp at h1
      rcases hd2 : hexDigit? c2 with _ | d2
      · rw [hd2] at h2
        simp at h2
      have hrest : (hexPairs rest).isSome = true := by
        rw [ih]
        exact ⟨by rw [hlen2] at hlen; exact hlen, fun c hc => hdig c (by simp [hc])⟩
      rcases h3 : hexPairs rest with _ | bs
      · rw [h3] at hrest
        simp at hrest
      simp [hexPairs, hd1, hd2, h3]

/-- C8 (amended): `to_public_key` deterministically returns the base58
encoding of the hex-decoded election id on every well-formed hex id (even
length, hex digits only), and on every id that is not decodable as hex it
fails with the hex decoder's `ValueError` — the code raises no dedicated
`InvalidElectionId`. -/
theorem to_public_key_characterization (election_id : String) :
    (hexWellFormed election_id →
      ∃ bs, hexDecode election_id = some bs ∧
        toPublicKey election_id = .ok (b58encode bs)) ∧
    (¬ hexWellFormed election_id →
      toPublicKey election_id = .error .valueError) := by
  constructor
  · intro hwf
    have hsome : (hexPairs election_id.toList).isSome = true :=
      (hexPairs_isSome_iff election_id.toList).mpr hwf
    rcases h : hexPairs election_id.toList with _ | bs
    · rw [h] at hsome
      simp at hsome
    · exact ⟨bs, h, by unfold toPublicKey hexDecode; rw [h]⟩
  · intro hwf
    rcases h : hexPairs election_id.toList with _ | bs
    · unfold toPublicKey hexDecode
      rw [h]
    · exfalso
      exact hwf ((hexPairs_isSome_iff election_id.toList).mp (by rw [h]; rfl))

theorem to_public_key_characterization_witness :
    hexWellFormed "00" ∧
      (∃ bs, hexDecode "00" = some bs ∧ toPublicKey "00" = .ok (b58encode bs)) :=
  ⟨by decide, (to_public_key_characterization "00").1 (by decide)⟩

/-- C8 counterexample: on the non-hex id `"zz"` the code raises the plain
hex-decoding `ValueError`, not the specification's `InvalidElectionId`. -/
theorem to_public_key_not_invalid_election_id :
    toPublicKey "zz" = .error .valueError ∧
      Except.error PyExc.valueError ≠
        (Except.error PyExc.invalidElectionId : Except PyExc String) := by
  constructor
  · decide
  · intro h
    injection h with h'
    exact PyExc.noConfusion h'

/-! ## The status machine under a validator-set change (C4) -/

/-- C4: when the latest recorded validator change sits at a height strictly
above the first block containing the election, `has_concluded` returns false
for every list of current votes — whatever the committed and pending counts
are — and `get_status` is `CONCLUDED` when an election result was already
persisted and `INCONCLUSIVE` otherwise; in particular no list of new votes
can make the election conclude. -/
theorem validator_change_freezes_election (s : BigchainState) (e : Election)
    (pk : String) (ch : ValidatorChange) (h : ℕ) (rest : List ℕ)
    (hpk : toPublicKey e.id = .ok pk)
    (hbl : s.blockContainingTx e.id = h :: rest)
    (hch : getValidatorChange s = some ch)
    (hgt : h < ch.height) :
    (∀ votes, hasConcluded s e votes = .ok false) ∧
      (getStatus s e = CONCLUDED ∨ getStatus s e = INCONCLUSIVE) := by
  have hvsc : hasValidatorSetChanged s e = true := by
    unfold hasValidatorSetChanged
    rw [hch, hbl]
    simpa using hgt
  constructor
  · intro votes
    unfold hasConcluded
    rw [hpk]
    simp only [hvsc, if_true]
  · unfold getStatus
    rcases hres : s.getElectionResult e.id with _ | r
    · rw [hvsc]
      simp
    · simp

/-- A chain state whose latest block (height 150) carries a validator
change, while the election below was included at height 100. -/
def sC4 : BigchainState :=
  { latestBlockHeight := some 150
    validatorChangeAt := fun h => if h == 150 then some ⟨150⟩ else none
    validatorsList := [("A", 5)]
    isCommitted := fun _ => false
    blockContainingTx := fun _ => [100]
    getTransaction := fun _ => none
    getElectionResult := fun _ => none
    assetTokens := fun _ _ => [] }

/-- An election with id `"00"` (election public key `"1"`). -/
def eC4 : Election :=
  { id := "00"
    inputs := []
    outputs := []
    inputsValid := true
    onApproval := fun _ => none }

theorem validator_change_freezes_election_witness :
    hasConcluded sC4 eC4 [] = .ok false ∧
      (getStatus sC4 eC4 = CONCLUDED ∨ getStatus sC4 eC4 = INCONCLUSIVE) := by
  have hmain := validator_change_freezes_election sC4 eC4 "1" ⟨150⟩ 100 []
    (by decide) (by decide) (by decide) (by decide)
  exact ⟨hmain.1 [], hmain.2⟩

/-! ## Single-shot conclusion (C3) -/

/-- C3: once `has_concluded` has returned true — so the then-pending votes
are subsequently committed on top of the committed total — it returns false
in every later state with the same validator set, whatever current votes
that state carries (in particular in every later block with no new votes):
the committed total now sits at or above the threshold, so the left
conjunct `votes_committed < (2/3) * total_votes` fails, making the
conclusion fire exactly once. -/
theorem has_concluded_single_shot (s1 s2 : BigchainState) (e : Election)
    (votes1 votes2 : List Transaction) (pk : String)
    (hpk : toPublicKey e.id = .ok pk)
    (h1 : hasConcluded s1 e votes1 = .ok true)
    (hmono : getCommittedVotes s1 e pk + countVotes pk votes1 ≤
      getCommittedVotes s2 e pk)
    (hval : s2.validatorsList = s1.validatorsList) :
    hasConcluded s2 e votes2 = .ok false := by
  unfold hasConcluded at h1 ⊢
  rw [hpk] at h1 ⊢
  dsimp only at h1 ⊢
  by_cases hv2 : hasValidatorSetChanged s2 e = true
  · rw [if_pos hv2]
  · rw [if_neg hv2]
    by_cases hv1 : hasValidatorSetChanged s1 e = true
    · rw [if_pos hv1] at h1
      exact absurd h1 (by simp)
    · rw [if_neg hv1] at h1
      have hcond : (getCommittedVotes s1 e pk : ℚ) <
          pyThreshold (dictValuesSum (getValidators s1)) ∧
          ((getCommittedVotes s1 e pk : ℚ) + (countVotes pk votes1 : ℚ) ≥
            pyThreshold (dictValuesSum (getValidators s1))) := by
        by_contra hc
        rw [if_neg hc] at h1
        exact absurd h1 (by simp)
      have hth : pyThreshold (dictValuesSum (getValidators s2)) =
          pyThreshold (dictValuesSum (getValidators s1)) := by
        unfold getValidators
        rw [hval]
      have hcast : (getCommittedVotes s1 e pk : ℚ) + (countVotes pk votes1 : ℚ) ≤
          (getCommittedVotes s2 e pk : ℚ) := by
        exact_mod_cast hmono
      have hx : ¬ ((getCommittedVotes s2 e pk : ℚ) <
          pyThreshold (dictValuesSum (getValidators s2)) ∧
          ((getCommittedVotes s2 e pk : ℚ) + (countVotes pk votes2 : ℚ) ≥
            pyThreshold (dictValuesSum (getValidators s2)))) := by
        intro hcc
        rw [hth] at hcc
        exact absurd hcc.1 (not_lt.mpr (le_trans hcond.2 hcast))
      rw [if_neg hx]

/-- The election of scenario S1/S2 (id `"00"`, election public key `"1"`). -/
def eS : Election :=
  { id := "00"
    inputs := []
    outputs := []
    inputsValid := true
    onApproval := fun _ => none }

/-- A vote of amount 5 to election public key `"1"` for asset `"00"`. -/
def vote5 : Transaction :=
  { operation := "VOTE"
    asset_id := "00"
    outputs := [Output.mk ["1"] 5] }

/-- Scenario S1 at block N+1: validators `A`, `B`, `C` of power 5 each
(total 15, threshold 10), one committed vote of 5. -/
def sS1 : BigchainState :=
  { latestBlockHeight := none
    validatorChangeAt := fun _ => none
    validatorsList := [("A", 5), ("B", 5), ("C", 5)]
    isCommitted := fun _ => false
    blockContainingTx := fun _ => [10]
    getTransaction := fun _ => none
    getElectionResult := fun _ => none
    assetTokens := fun _ _ => [vote5] }

/-- Scenario S2 at block N+2: the previously pending vote is now committed
(committed total 10). -/
def sS2 : BigchainState :=
  { latestBlockHeight := none
    validatorChangeAt := fun _ => none
    validatorsList := [("A", 5), ("B", 5), ("C", 5)]
    isCommitted := fun _ => false
    blockContainingTx := fun _ => [10]
    getTransaction := fun _ => none
    getElectionResult := fun _ => none
    assetTokens := fun _ _ => [vote5, vote5] }

theorem has_concluded_single_shot_witness :
    hasConcluded sS1 eS [vote5] = .ok true ∧
      hasConcluded sS2 eS [vote5] = .ok false :=
  ⟨by with_unfolding_all decide,
    has_concluded_single_shot sS1 sS2 eS [vote5] [vote5] "1" (by decide)
      (by with_unfolding_all decide) (by decide) (by decide)⟩

/-! ## The float threshold versus exact integer arithmetic (C2) -/

/-- A chain with a single validator of power `2^53 − 1` (within Tendermint's
`MaxTotalVotingPower` cap of about `2^60`) and no committed votes. -/
def sBig : BigchainState :=
  { latestBlockHeight := none
    validatorChangeAt := fun _ => none
    validatorsList := [("v", 9007199254740991)]
    isCommitted := fun _ => false
    blockContainingTx := fun _ => []
    getTransaction := fun _ => none
    getElectionResult := fun _ => none
    assetTokens := fun _ _ => [] }

/-- An election with id `"00"` on the big-power chain. -/
def eBig : Election :=
  { id := "00"
    inputs := []
    outputs := []
    inputsValid := true
    onApproval := fun _ => none }

/-- A pending vote of exactly `⌊2·(2^53 − 1)/3⌋` tokens to the election
public key `"1"`. -/
def voteBig : Transaction :=
  { operation := "VOTE"
    asset_id := "00"
    outputs := [Output.mk ["1"] 6004799503160660] }

set_option maxRecDepth 8000 in
/-- C2 (code bug evidence): at total voting power `T = 2^53 − 1` the Python
float threshold `(2/3) * total_votes` rounds down to
`⌊2T/3⌋ = 6004799503160660`, so with committed total `0` and pending total
`⌊2T/3⌋` the source's `has_concluded` returns true although
`3·(committed + pending) ≥ 2·T` fails: the tally is one vote short of the
`⌈2T/3⌉` supermajority that the specification's mandated integer
arithmetic requires, refuting the claimed equivalence. -/
theorem has_concluded_float_drift :
    hasConcluded sBig eBig [voteBig] = .ok true ∧
      getCommittedVotes sBig eBig "1" = 0 ∧
      countVotes "1" [voteBig] = 6004799503160660 ∧
      dictValuesSum (getValidators sBig) = 9007199254740991 ∧
      ¬ intSupermajority 0 6004799503160660 9007199254740991 :=
  ⟨by with_unfolding_all decide, by decide, by decide, by decide, by decide⟩

/-! ## The approval driver returns at most one update (C1) -/

theorem getLast?_cons_eq {α : Type} (x : α) (l : List α) :
    (x :: l).getLast? =
      match l.getLast? with
      | none => some x
      | some y => some y := by
  induction l generalizing x with
  | nil => rfl
  | cons z t ih =>
    rw [List.getLast?_cons_cons, ih z]
    rcases t.getLast? with _ | y <;> rfl

theorem approvedLoop_eq (s : BigchainState) (nh : ℕ) :
    ∀ (l : List (String × List Transaction)) (vu : Option ValidatorUpdate),
      (∀ p ∈ l, electionStepOk s p = true) →
      approvedLoop s nh l vu =
        .ok (match (concludedOf s nh l).getLast? with
             | some o => o
             | none => vu)
  | [], vu, _ => by simp [approvedLoop, concludedOf]
  | (eid, votes) :: rest, vu, hok => by
    have hste := hok (eid, votes) (by simp)
    have hrest : ∀ p ∈ rest, electionStepOk s p = true := fun p hp =>
      hok p (by simp [hp])
    unfold electionStepOk at hste
    dsimp only at hste
    have hstep : approvedLoop s nh ((eid, votes) :: rest) vu =
        match s.getTransaction eid with
        | none => approvedLoop s nh rest vu
        | some election =>
          match hasConcluded s election votes with
          | .error ex => .error ex
          | .ok false => approvedLoop s nh rest vu
          | .ok true => approvedLoop s nh rest (election.onApproval nh) := rfl
    have hcf0 : concludedOf s nh ((eid, votes) :: rest) =
        match s.getTransaction eid with
        | none => concludedOf s nh rest
        | some e =>
          match hasConcluded s e votes with
          | .ok true => e.onApproval nh :: concludedOf s nh rest
          | _ => concludedOf s nh rest := by
      unfold concludedOf
      rw [List.filterMap_cons]
      dsimp only
      rcases s.getTransaction eid with _ | e2
      · rfl
      · dsimp only
        rcases hasConcluded s e2 votes with ex | b
        · rfl
        · rcases b <;> rfl
    rcases hg : s.getTransaction eid with _ | e
    · rw [hg] at hstep hcf0
      rw [hstep, hcf0, approvedLoop_eq s nh rest vu hrest]
    · rw [hg] at hstep hcf0 hste
      dsimp only at hstep hcf0 hste
      rcases hc : hasConcluded s e votes with ex | b
      · rw [hc] at hste
        exact absurd hste (by simp [exceptOk])
      · rcases b with _ | _
        · rw [hc] at hstep hcf0
          rw [hstep, hcf0, approvedLoop_eq s nh rest vu hrest]
        · rw [hc] at hstep hcf0
          rw [hstep, hcf0, approvedLoop_eq s nh rest (e.onApproval nh) hrest,
            getLast?_cons_eq]
          rcases (concludedOf s nh rest).getLast? with _ | y <;> rfl

/-- C1 (amended): `approved_elections` does not return the list of all the
concluded elections' non-null updates.  It carries one `validator_update`
variable that each concluded election overwrites, so on a block whose
per-election `has_concluded` calls all return, it returns exactly the
`on_approval` result of the last concluded election in first-appearance
order — as a singleton list when that result is non-null and the empty
list otherwise — discarding the updates of every earlier concluded
election. -/
theorem approved_elections_last_update (s : BigchainState) (new_height : ℕ)
    (txns : List Transaction)
    (hok : ∀ p ∈ groupVotes txns, electionStepOk s p = true) :
    approved_elections s new_height txns =
      .ok (match (concludedOf s new_height (groupVotes txns)).getLast? with
           | some (some u) => [u]
           | some none => []
           | none => []) := by
  unfold approved_elections
  rw [approvedLoop_eq s new_height (groupVotes txns) none hok]
  rcases (concludedOf s new_height (groupVotes txns)).getLast? with _ | o
  · rfl
  · rcases o with _ | u <;> rfl

/-- The first concluded election of the two-election block below; its
`on_approval` returns update 1. -/
def elecAE1 : Election :=
  { id := "00"
    inputs := []
    outputs := []
    inputsValid := true
    onApproval := fun _ => some ⟨1⟩ }

/-- The second concluded election; its `on_approval` returns update 2. -/
def elecAE2 : Election :=
  { id := "01"
    inputs := []
    outputs := []
    inputsValid := true
    onApproval := fun _ => some ⟨2⟩ }

/-- A chain with one validator of power 3 (threshold 2) storing both
elections and no committed votes. -/
def sAE : BigchainState :=
  { latestBlockHeight := none
    validatorChangeAt := fun _ => none
    validatorsList := [("v", 3)]
    isCommitted := fun _ => false
    blockContainingTx := fun _ => []
    getTransaction := fun i =>
      if i == "00" then some elecAE1 else if i == "01" then some elecAE2 else none
    getElectionResult := fun _ => none
    assetTokens := fun _ _ => [] }

/-- A concluding vote (amount 2) for election `"00"` (public key `"1"`). -/
def voteAE1 : Transaction :=
  { operation := "VOTE"
    asset_id := "00"
    outputs := [Output.mk ["1"] 2] }

/-- A concluding vote (amount 2) for election `"01"` (public key `"2"`). -/
def voteAE2 : Transaction :=
  { operation := "VOTE"
    asset_id := "01"
    outputs := [Output.mk ["2"] 2] }

/-- C1 counterexample: in a block concluding both elections, with
`on_approval` results update 1 and update 2, `approved_elections` returns
only `[update 2]` — not the claimed list `[update 1, update 2]` of all
non-null updates. -/
theorem approved_elections_drops_updates :
    approved_elections sAE 7 [voteAE1, voteAE2] = .ok [ValidatorUpdate.mk 2] ∧
      (Except.ok [ValidatorUpdate.mk 2] : Except PyExc (List ValidatorUpdate)) ≠
        Except.ok [ValidatorUpdate.mk 1, ValidatorUpdate.mk 2] := by
  constructor
  · with_unfolding_all decide
  · decide

theorem approved_elections_last_update_witness :
    approved_elections sAE 7 [voteAE1, voteAE2] = .ok [ValidatorUpdate.mk 2] :=
  (approved_elections_last_update sAE 7 [voteAE1, voteAE2]
      (by with_unfolding_all decide)).trans
    (by with_unfolding_all decide)
